import Mathlib

/-
Verification of the Dean Dashboard status-resolution engine (src/1.py).

Modelling conventions for the shallow embedding:
- Python strings are modelled as Lean `String` (a structure over `List Char`);
  the pandas string operations `.str.lower()` and `.str.strip()` are modelled
  character-by-character on the underlying list (`pyLower`, `pyStrip`).
  `pyLowerCh` models Python `str.lower` on the ASCII range, and `wsB` models
  the whitespace set stripped by `str.strip` (space, tab, newline, CR).
- A pandas DataFrame as produced by `_df_from_values` is modelled as `DF`:
  a header (column names, the first sheet row) and a list of data rows, each a
  list of string cells.  `DF.isEmpty` models `DataFrame.empty` (no rows or no
  columns).  Reading a column that is absent is modelled as reading the empty
  string; every code path in the source backfills the columns it reads
  (`if col not in df.columns: df[col] = ""`), which `backfill` mirrors, so this
  default is never observable where the source would raise.  Derived columns
  (`_class_lower` etc.) are appended by `_prep_cfg` exactly as the source does;
  the raw sheets are assumed not to already contain those reserved names.
- The HTTP tab reader `load_tab` is modelled over an abstract store response:
  either an HTTP error code or the list-of-lists of cell values; `Except`
  models "raises" vs "returns".
-/

/-- Model of Python `str.lower` on one character (ASCII case folding). -/
def pyLowerCh (c : Char) : Char :=
  if 65 ≤ c.toNat ∧ c.toNat ≤ 90 then Char.ofNat (c.toNat + 32) else c

/-- Model of Python `str.lower` on the character list of a string. -/
def pyLowerL (l : List Char) : List Char := l.map pyLowerCh

/-- Model of Python `str.lower` / pandas `.str.lower()`. -/
def pyLower (s : String) : String := ⟨pyLowerL s.data⟩

/-- Whitespace as stripped by Python `str.strip`: space, tab, newline, carriage return. -/
def wsB (c : Char) : Bool := c.toNat = 32 || c.toNat = 9 || c.toNat = 10 || c.toNat = 13

/-- Drop trailing whitespace. -/
def dropEnd (l : List Char) : List Char := (l.reverse.dropWhile wsB).reverse

/-- Model of Python `str.strip` on the character list: drop leading and trailing whitespace. -/
def pyStripL (l : List Char) : List Char := dropEnd (l.dropWhile wsB)

/-- Model of Python `str.strip` / pandas `.str.strip()`. -/
def pyStrip (s : String) : String := ⟨pyStripL s.data⟩

/-- The join-key normalization used by `_prep_cfg` (src/1.py lines 113-115):
`.astype(str).str.strip().str.lower()`. -/
def normKey (s : String) : String := pyLower (pyStrip s)

/-- Lower-case ASCII letter or digit: the character class `[a-z0-9]` of `_norm`. -/
def isLowAl (c : Char) : Bool := (97 ≤ c.toNat && c.toNat ≤ 122) || (48 ≤ c.toNat && c.toNat ≤ 57)

/-- Map every character outside `[a-z0-9]` to a space (first half of the
`re.sub` in `_norm`). -/
def toSpace (c : Char) : Char := if isLowAl c then c else ' '

/-- Collapse runs of spaces to one space (second half of the `re.sub` in
`_norm`: each maximal run of non-alphanumerics becomes a single space). -/
def collapseSpaces : List Char → List Char
  | [] => []
  | [c] => [c]
  | a :: b :: t => if a = ' ' ∧ b = ' ' then collapseSpaces (b :: t) else a :: collapseSpaces (b :: t)

/-- Character-list body of `_norm`. -/
def normWordsL (l : List Char) : List Char := pyStripL (collapseSpaces ((pyLowerL l).map toSpace))

/-- `_norm` from src/1.py line 184:
`re.sub(r"[^a-z0-9]+", " ", str(s).lower()).strip()`. -/
def _norm (s : String) : String := ⟨normWordsL s.data⟩

/-- A pandas DataFrame as produced by `_df_from_values`: header row and data rows. -/
structure DF where
  header : List String
  rows : List (List String)
deriving DecidableEq

/-- `DataFrame.empty`: true when there are no data rows or no columns. -/
def DF.isEmpty (df : DF) : Bool := df.rows.isEmpty || df.header.isEmpty

/-- Index of the first column named `name` in header `h`. -/
def colIdx (h : List String) (name : String) : Option Nat :=
  match h with
  | [] => none
  | x :: t => if x = name then some 0 else (colIdx t name).map (fun i => i + 1)

/-- Read the cell of row `r` in the column named `name` of a frame with header `h`;
an absent column or a short row reads as the empty string. -/
def cellOf (h r : List String) (name : String) : String :=
  match colIdx h name with
  | some i => r.getD i ""
  | none => ""

/-- Pad a row with empty cells up to width `n`. -/
def padTo (r : List String) (n : Nat) : List String := r ++ List.replicate (n - r.length) ""

/-- Header after `if n not in df.columns: df[n] = ""`. -/
def amHdr (h : List String) (n : String) : List String := if n ∈ h then h else h ++ [n]

/-- Row after `if n not in df.columns: df[n] = ""`. -/
def amRow (h : List String) (n : String) (r : List String) : List String :=
  if n ∈ h then r else padTo r h.length ++ [""]

/-- One step of defensive column backfilling. -/
def addMissing (df : DF) (n : String) : DF := ⟨amHdr df.header n, df.rows.map (amRow df.header n)⟩

/-- `for col in names: if col not in df.columns: df[col] = ""`. -/
def backfill (df : DF) : List String → DF
  | [] => df
  | n :: ns => backfill (addMissing df n) ns

/-- Header of a backfilled frame, unfolded for reasoning. -/
def bfH (h : List String) : List String → List String
  | [] => h
  | n :: ns => bfH (amHdr h n) ns

/-- One row of a backfilled frame, unfolded for reasoning. -/
def bfRow (h r : List String) : List String → List String
  | [] => r
  | n :: ns => bfRow (amHdr h n) (amRow h n r) ns

/-- `_df_from_values` from src/1.py: first value row becomes the header,
the rest become the data rows; no values at all give an empty frame. -/
def _df_from_values (values : List (List String)) : DF :=
  match values with
  | [] => ⟨[], []⟩
  | cols :: rows => ⟨cols, rows⟩

/-- The document store's answer to one `values:batchGet` call, abstracted:
an HTTP status code on failure, or the returned cell values. -/
inductive StoreResp where
  | httpError (code : Nat)
  | values (vs : List (List String))
deriving DecidableEq

/-- `load_tab` from src/1.py lines 83-90: a 400 or 404 response yields an empty
frame, any other HTTP error propagates (`raise_for_status`), and values parse
via `_df_from_values`. -/
def load_tab : StoreResp → Except Nat DF
  | .httpError code => if code = 400 ∨ code = 404 then .ok ⟨[], []⟩ else .error code
  | .values vs => .ok (_df_from_values vs)

/-- `is_class_final_approved` from src/1.py lines 101-106, as a function of the
loaded `_Approvals` frame: if the first header cell is "Scope" the first data
row is skipped; a remaining row matches when its first cell strips to
"ClassFinal" and its second cell strips to the exact class string. -/
def is_class_final_approved (ap : DF) (klass : String) : Bool :=
  if ap.isEmpty then false
  else
    let rows := if ap.header.head? = some "Scope" then ap.rows.tail else ap.rows
    rows.any (fun r => decide (pyStrip (r.getD 0 "") = "ClassFinal") && decide (pyStrip (r.getD 1 "") = klass))

/-- `_prep_cfg` from src/1.py lines 108-116: backfill Class/CourseCode/Component,
then append the three normalized join-key columns. -/
def _prep_cfg (cfg : DF) : DF :=
  if cfg.isEmpty then
    ⟨["Class", "Course", "CourseCode", "Component", "_class_lower", "_code_lower", "_comp_lower"], []⟩
  else
    let c := backfill cfg ["Class", "CourseCode", "Component"]
    ⟨c.header ++ ["_class_lower", "_code_lower", "_comp_lower"],
      c.rows.map (fun r =>
        padTo r c.header.length ++
          [normKey (cellOf c.header r "Class"),
            normKey (cellOf c.header r "CourseCode"),
            normKey (cellOf c.header r "Component")])⟩

/-- The audit join key: `au["Course"].str.lower().str.strip() + "||" + au["Component"]...`. -/
def auditKeyOf (h r : List String) : String :=
  pyStrip (pyLower (cellOf h r "Course")) ++ "||" ++ pyStrip (pyLower (cellOf h r "Component"))

/-- The set of locked keys built by `all_components_locked_for_class` (src/1.py
lines 123-128): backfill Course/Component/Action on the audit frame, keep rows
whose Action lower-cases to "locked", and take their join keys. -/
def lockedKeysOf (audit : DF) : List String :=
  let au := backfill audit ["Course", "Component", "Action"]
  (au.rows.filter (fun r => decide (pyLower (cellOf au.header r "Action") = "locked"))).map
    (fun r => auditKeyOf au.header r)

/-- The config join key: `c["_code_lower"] + "||" + c["_comp_lower"]`. -/
def cfgKeyOf (h r : List String) : String :=
  cellOf h r "_code_lower" ++ "||" ++ cellOf h r "_comp_lower"

/-- The config rows selected by `cfg[cfg["_class_lower"] == str(klass).lower()]`. -/
def matchingRows (cfg : DF) (klass : String) : List (List String) :=
  cfg.rows.filter (fun r => decide (cellOf cfg.header r "_class_lower" = pyLower klass))

/-- `all_components_locked_for_class` from src/1.py lines 118-129. -/
def all_components_locked_for_class (cfg audit : DF) (klass : String) : Nat × Nat × Bool :=
  if cfg.isEmpty then (0, 0, false)
  else
    let c := matchingRows cfg klass
    let total := c.length
    if total = 0 ∨ audit.isEmpty then (0, total, false)
    else
      let lockedKeys := lockedKeysOf audit
      let locked := (c.filter (fun r => decide (cfgKeyOf cfg.header r ∈ lockedKeys))).length
      (locked, total, decide (locked = total))

/-- Boolean test: does `needle` occur at the start of the second list? -/
def startsWithL : List Char → List Char → Bool
  | [], _ => true
  | _ :: _, [] => false
  | a :: as, b :: bs => a == b && startsWithL as bs

/-- Boolean substring containment, modelling Python `needle in hay`. -/
def substrL (needle : List Char) : List Char → Bool
  | [] => needle.isEmpty
  | c :: t => startsWithL needle (c :: t) || substrL needle t

/-- Python `needle in hay` on strings. -/
def substrS (needle hay : String) : Bool := substrL needle.data hay.data

/-- The ordered search patterns of `find_matching_marks_tab` (src/1.py lines 164-170). -/
def patternsOf (component_name : String) : List String :=
  let comp_norm := pyStrip (pyLower component_name)
  [comp_norm, comp_norm ++ "_marks", comp_norm ++ " marks", "marks_" ++ comp_norm, "marks " ++ comp_norm]

/-- `find_matching_marks_tab` from src/1.py lines 159-182: first title whose
normalized form equals one of the component-based patterns; otherwise the first
title whose normalized form contains the normalized component; otherwise "". -/
def find_matching_marks_tab (component_name : String) (all_titles : List String) : String :=
  match all_titles.find? (fun title => decide (pyStrip (pyLower title) ∈ patternsOf component_name)) with
  | some title => title
  | none =>
    match all_titles.find? (fun title => substrS (pyStrip (pyLower component_name)) (pyStrip (pyLower title))) with
    | some title => title
    | none => ""

/-- The three-state classification of a (course, component) row. -/
inductive Status where
  | Locked
  | DraftSaved
  | NotStarted
deriving DecidableEq

/-- Modelled from the spec: the Status Classifier of spec section 4.4 is not part
of src/1.py (this dashboard version only renders lock state); per the spec,
a locked row is `Locked`, otherwise a non-empty candidate tab gives
`DraftSaved`, and an absent, unreadable or empty tab gives `NotStarted`. -/
def classify (isLocked : Bool) (tab : Except Nat DF) : Status :=
  if isLocked then .Locked
  else
    match tab with
    | .ok df => if df.rows.isEmpty then .NotStarted else .DraftSaved
    | .error _ => .NotStarted

/-- Replace every '/' or space by `rep` (used for class-name variants). -/
def substCh (rep : List Char) : List Char → List Char
  | [] => []
  | c :: t => (if c = '/' ∨ c = ' ' then rep else [c]) ++ substCh rep t

/-- Modelled from the spec: the class-name variants of spec section 4.5 step 1,
substituting '/' and spaces with '-', '_', or deleting them. -/
def classVariants (klass : String) : List String :=
  [klass, ⟨substCh ['-'] klass.data⟩, ⟨substCh ['_'] klass.data⟩, ⟨substCh [] klass.data⟩]

/-- Split a character list on single spaces. -/
def tokensL : List Char → List (List Char)
  | [] => [[]]
  | c :: t =>
    if c = ' ' then [] :: tokensL t
    else
      match tokensL t with
      | [] => [[c]]
      | x :: xs => (c :: x) :: xs

/-- Whitespace-separated tokens of a (normalized) string. -/
def tokensOf (s : String) : List (List Char) := (tokensL s.data).filter (fun t => !t.isEmpty)

/-- Modelled from the spec: a normalized title is provisional when it contains
any of the tokens "provisional", "preview", "draft", "prov" (spec section 4.5). -/
def isProvTitle (nt : String) : Bool :=
  ["provisional", "preview", "draft", "prov"].any (fun w => substrS w nt)

/-- Modelled from the spec: the Tier A candidate test of spec section 4.5 — the
normalized title contains "final" and either some normalized class variant is a
substring of it or every token of the normalized class name appears among its
tokens. -/
def isFinalCandA (klass : String) (title : String) : Bool :=
  let nt := _norm title
  substrS "final" nt &&
    ((classVariants klass).any (fun v => substrS (_norm v) nt) ||
      (tokensOf (_norm klass)).all (fun tk => decide (tk ∈ tokensOf nt)))

/-- Modelled from the spec: scan the titles in order; each candidate fills the
provisional or approved slot if that slot is still empty. -/
def fillSlots (cand : String → Bool) (titles : List String) (slots : Option String × Option String) :
    Option String × Option String :=
  titles.foldl
    (fun s t =>
      if cand t then
        if isProvTitle (_norm t) then (s.1, if s.2.isSome then s.2 else some t)
        else ((if s.1.isSome then s.1 else some t), s.2)
      else s)
    slots

/-- Modelled from the spec: Tier C literal templates for the approved slot. -/
def tierCApproved (klass : String) (titles : List String) : Option String :=
  [klass ++ "__Final", klass ++ " Final", "Final " ++ klass,
    "Class Final - " ++ klass, klass ++ " - Class Final"].find? (fun t => decide (t ∈ titles))

/-- Modelled from the spec: Tier C literal templates for the provisional slot. -/
def tierCProvisional (klass : String) (titles : List String) : Option String :=
  [klass ++ "__Final (Provisional)", klass ++ "__Final_Provisional",
    klass ++ " Final (Provisional)"].find? (fun t => decide (t ∈ titles))

/-- Modelled from the spec: `locateFinalTabs` of spec section 4.5 — the
Final-Tab Locator is referenced but elided in src/1.py ("Final/Provisional
downloads code is unchanged"); Tier A (strict candidates), then Tier B (only
"final" required), then the Tier C literal fallbacks, never overwriting a
filled slot. -/
def locateFinalTabs (titles : List String) (klass : String) : Option String × Option String :=
  let a := fillSlots (fun t => isFinalCandA klass t) titles (none, none)
  let b := fillSlots (fun t => substrS "final" (_norm t)) titles a
  ((if b.1.isSome then b.1 else tierCApproved klass titles),
    (if b.2.isSome then b.2 else tierCProvisional klass titles))

/-- No two adjacent spaces. -/
def noDbl : List Char → Prop
  | [] => True
  | [_] => True
  | a :: b :: t => ¬(a = ' ' ∧ b = ' ') ∧ noDbl (b :: t)

/-- Invariant of `_norm` output: every character is a lower-case alphanumeric or
a space, no two spaces are adjacent, and neither end is whitespace. -/
def goodStr (r : List Char) : Prop :=
  (∀ c ∈ r, isLowAl c = true ∨ c = ' ') ∧ noDbl r ∧
    (∀ a t, r = a :: t → wsB a = false) ∧ (∀ a t, r.reverse = a :: t → wsB a = false)

/-- C2 (code_bug evidence): on an `_Approvals` table holding a header row and
exactly one record {Scope: "ClassFinal", Key: "Second Year"}, the code returns
`false` for class "Second Year" — because the first header cell is "Scope" it
skips the first data row, dropping the only record; duplicating the record
makes it return `true`, which isolates the row-drop as the cause. -/
theorem is_class_final_approved_drops_first_record :
    is_class_final_approved ⟨["Scope", "Key"], [["ClassFinal", "Second Year"]]⟩ "Second Year" = false ∧
    is_class_final_approved ⟨["Scope", "Key"],
      [["ClassFinal", "Second Year"], ["ClassFinal", "Second Year"]]⟩ "Second Year" = true := by
  constructor
  · decide
  · decide

/-- C4: if zero config rows match the class, `all_components_locked_for_class`
returns (0, 0, false); and in all cases the returned flag is true exactly when
the locked count equals the total count and the total count is positive. -/
theorem resolveLocks_empty_and_allLocked_iff (cfg audit : DF) (klass : String) :
    ((matchingRows cfg klass).length = 0 →
      all_components_locked_for_class cfg audit klass = (0, 0, false)) ∧
    ((all_components_locked_for_class cfg audit klass).2.2 = true ↔
      (all_components_locked_for_class cfg audit klass).1 =
          (all_components_locked_for_class cfg audit klass).2.1 ∧
        0 < (all_components_locked_for_class cfg audit klass).2.1) := by
  constructor
  · intro h0
    simp only [all_components_locked_for_class]
    by_cases he : cfg.isEmpty = true
    · simp [he]
    · simp only [Bool.not_eq_true] at he
      simp [he, h0]
  · simp only [all_components_locked_for_class]
    by_cases he : cfg.isEmpty = true
    · simp [he]
    · simp only [Bool.not_eq_true] at he
      by_cases h0 : (matchingRows cfg klass).length = 0
      · simp [he, h0]
      · by_cases ha : audit.isEmpty = true
        · simp [he, h0, ha]
          omega
        · simp only [Bool.not_eq_true] at ha
          simp [he, h0, ha, decide_eq_true_eq]
          intro _
          omega

/-- C4 witness. -/
theorem resolveLocks_empty_and_allLocked_iff_witness :
    all_components_locked_for_class (_prep_cfg ⟨["Class"], [["B"]]⟩) ⟨[], []⟩ "A" = (0, 0, false) :=
  (resolveLocks_empty_and_allLocked_iff (_prep_cfg ⟨["Class"], [["B"]]⟩) ⟨[], []⟩ "A").1 (by decide)

/-- C10: the locked count never exceeds the total count, nor the number of
config rows matching the class (counts are naturals, so both are at least 0). -/
theorem resolveLocks_locked_le_total (cfg audit : DF) (klass : String) :
    (all_components_locked_for_class cfg audit klass).1 ≤
        (all_components_locked_for_class cfg audit klass).2.1 ∧
      (all_components_locked_for_class cfg audit klass).1 ≤ (matchingRows cfg klass).length := by
  simp only [all_components_locked_for_class]
  by_cases he : cfg.isEmpty = true
  · simp [he]
  · simp only [Bool.not_eq_true] at he
    by_cases h0 : matchingRows cfg klass = [] ∨ audit.isEmpty = true
    · simp [he, h0]
    · simp [he, h0, List.length_filter_le]

theorem backfill_eq (ns : List String) : ∀ (h : List String) (rows : List (List String)),
    backfill ⟨h, rows⟩ ns = ⟨bfH h ns, rows.map (fun r => bfRow h r ns)⟩ := by
  induction ns with
  | nil =>
    intro h rows
    simp [backfill, bfH, bfRow]
  | cons n ns ih =>
    intro h rows
    show backfill (addMissing ⟨h, rows⟩ n) ns = _
    simp only [addMissing]
    rw [ih]
    rw [List.map_map]
    rfl

theorem lockedKeysOf_append (h : List String) (rows : List (List String)) (ev : List String) :
    ∃ extra, lockedKeysOf ⟨h, rows ++ [ev]⟩ = lockedKeysOf ⟨h, rows⟩ ++ extra := by
  simp only [lockedKeysOf]
  rw [backfill_eq, backfill_eq]
  simp only [List.map_append, List.filter_append, List.map_append]
  exact ⟨_, rfl⟩

/-- Appending any audit row never decreases the locked count (helper for C6). -/
theorem resolveLocks_append_mono (cfg : DF) (h : List String) (rows : List (List String))
    (ev : List String) (klass : String) :
    (all_components_locked_for_class cfg ⟨h, rows⟩ klass).1 ≤
      (all_components_locked_for_class cfg ⟨h, rows ++ [ev]⟩ klass).1 := by
  simp only [all_components_locked_for_class]
  by_cases he : cfg.isEmpty = true
  · simp [he]
  · simp only [Bool.not_eq_true] at he
    by_cases h0 : matchingRows cfg klass = []
    · simp [he, h0]
    · by_cases hh : h.isEmpty = true
      · have e1 : DF.isEmpty ⟨h, rows⟩ = true := by simp [DF.isEmpty, hh]
        have e2 : DF.isEmpty ⟨h, rows ++ [ev]⟩ = true := by simp [DF.isEmpty, hh]
        simp [he, h0, e1, e2]
      · simp only [Bool.not_eq_true] at hh
        by_cases hr : rows.isEmpty = true
        · have e1 : DF.isEmpty ⟨h, rows⟩ = true := by simp [DF.isEmpty, hr]
          simp [he, h0, e1]
        · simp only [Bool.not_eq_true] at hr
          have e1 : DF.isEmpty ⟨h, rows⟩ = false := by simp [DF.isEmpty, hh, hr]
          have e2 : DF.isEmpty ⟨h, rows ++ [ev]⟩ = false := by
            simp [DF.isEmpty, hh]
          simp only [he, h0, e1, e2, Bool.false_eq_true, or_self, if_false, or_false]
          have hL : ¬(matchingRows cfg klass).length = 0 := by simpa using h0
          rw [if_neg hL, if_neg hL]
          obtain ⟨extra, hx⟩ := lockedKeysOf_append h rows ev
          rw [hx]
          apply List.Sublist.length_le
          apply List.monotone_filter_right
          intro a ha
          simp only [decide_eq_true_eq] at ha ⊢
          exact List.mem_append_left _ ha

/-- C6: appending one audit event whose Action normalizes to "locked" and whose
normalized (course-code, component) key matches an existing config row of the
class never decreases the locked count returned by
`all_components_locked_for_class`. -/
theorem resolveLocks_monotonic (cfg : DF) (h : List String) (rows : List (List String))
    (ev : List String) (klass : String)
    (hact : normKey (cellOf h ev "Action") = "locked")
    (hkey : ∃ r ∈ matchingRows cfg klass, cfgKeyOf cfg.header r = auditKeyOf h ev) :
    (all_components_locked_for_class cfg ⟨h, rows⟩ klass).1 ≤
      (all_components_locked_for_class cfg ⟨h, rows ++ [ev]⟩ klass).1 :=
  resolveLocks_append_mono cfg h rows ev klass

/-- C6 witness: a concrete config, audit header, event and class satisfying the
hypotheses, with the conclusion instantiated. -/
theorem resolveLocks_monotonic_witness :
    (normKey (cellOf ["Class", "Course", "Component", "Action"] ["A", "C1", "T1", "locked"] "Action") =
        "locked") ∧
    (∃ r ∈ matchingRows (_prep_cfg ⟨["Class", "CourseCode", "Component"], [["A", "C1", "T1"]]⟩) "A",
        cfgKeyOf (_prep_cfg ⟨["Class", "CourseCode", "Component"], [["A", "C1", "T1"]]⟩).header r =
          auditKeyOf ["Class", "Course", "Component", "Action"] ["A", "C1", "T1", "locked"]) ∧
    (all_components_locked_for_class (_prep_cfg ⟨["Class", "CourseCode", "Component"], [["A", "C1", "T1"]]⟩)
          ⟨["Class", "Course", "Component", "Action"], []⟩ "A").1 ≤
      (all_components_locked_for_class (_prep_cfg ⟨["Class", "CourseCode", "Component"], [["A", "C1", "T1"]]⟩)
          ⟨["Class", "Course", "Component", "Action"], [] ++ [["A", "C1", "T1", "locked"]]⟩ "A").1 :=
  ⟨by decide, by decide,
    resolveLocks_monotonic (_prep_cfg ⟨["Class", "CourseCode", "Component"], [["A", "C1", "T1"]]⟩)
      ["Class", "Course", "Component", "Action"] [] ["A", "C1", "T1", "locked"] "A" (by decide) (by decide)⟩

/-- C1 counterexample: with an audit table that does have a Class column, a
single "locked" event recorded under class "B" marks the one config row of
class "A" (same course-code and component text) as locked: the resolver
reports (1, 1, true), although the event's class normalizes differently from
the target class. -/
theorem resolveLocks_cross_class_lock :
    all_components_locked_for_class
        (_prep_cfg ⟨["Class", "CourseCode", "Component"], [["A", "C1", "T1"]]⟩)
        ⟨["Class", "Course", "Component", "Action"], [["B", "C1", "T1", "locked"]]⟩ "A" =
      (1, 1, true) ∧
    "Class" ∈ (⟨["Class", "Course", "Component", "Action"], [["B", "C1", "T1", "locked"]]⟩ : DF).header ∧
    normKey "B" ≠ normKey "A" := by
  refine ⟨by decide, by decide, by decide⟩

theorem getD_replicate_empty (k : Nat) : ∀ i : Nat, (List.replicate k ("" : String)).getD i "" = "" := by
  induction k with
  | zero => intro i; simp
  | succ m ih =>
    intro i
    cases i with
    | zero => rfl
    | succ j => simpa [List.replicate] using ih j

theorem getD_append_replicate (k : Nat) :
    ∀ (r : List String) (i : Nat), (r ++ List.replicate k "").getD i "" = r.getD i "" := by
  intro r
  induction r with
  | nil => intro i; simpa using getD_replicate_empty k i
  | cons a t ih =>
    intro i
    cases i with
    | zero => rfl
    | succ j => simpa using ih j

theorem getD_append_unit : ∀ (x : List String) (i : Nat), (x ++ [""]).getD i "" = x.getD i "" := by
  intro x
  induction x with
  | nil =>
    intro i
    cases i with
    | zero => rfl
    | succ j => simp
  | cons a t ih =>
    intro i
    cases i with
    | zero => rfl
    | succ j => simpa using ih j

theorem getD_padTo_unit (r : List String) (m i : Nat) : (padTo r m ++ [""]).getD i "" = r.getD i "" := by
  rw [getD_append_unit]
  exact getD_append_replicate (m - r.length) r i

theorem getD_len_append_unit : ∀ x : List String, (x ++ [""]).getD x.length "" = "" := by
  intro x
  induction x with
  | nil => rfl
  | cons a t ih => simpa using ih

theorem padTo_length (r : List String) (m : Nat) (hr : r.length ≤ m) : (padTo r m).length = m := by
  simp only [padTo, List.length_append, List.length_replicate]
  omega

theorem colIdx_append_of_some (h : List String) (n c : String) :
    ∀ i : Nat, colIdx h c = some i → colIdx (h ++ [n]) c = some i := by
  induction h with
  | nil => intro i hc; simp [colIdx] at hc
  | cons x t ih =>
    intro i hc
    by_cases hx : x = c
    · simp only [colIdx, hx, if_pos rfl] at hc ⊢
      simpa using hc
    · simp only [List.cons_append, colIdx, hx, if_false, List.append_eq] at hc ⊢
      cases ht : colIdx t c with
      | none => rw [ht] at hc; simp at hc
      | some j =>
        rw [ht] at hc
        simp only [Option.map] at hc
        rw [ih j ht]
        simpa using hc

theorem colIdx_append_of_none (h : List String) (n c : String) (hc : colIdx h c = none) :
    colIdx (h ++ [n]) c = if n = c then some h.length else none := by
  induction h with
  | nil =>
    by_cases hn : n = c <;> simp [colIdx, hn]
  | cons x t ih =>
    by_cases hx : x = c
    · simp [colIdx, hx] at hc
    · simp only [colIdx, hx, if_false] at hc
      have ht : colIdx t c = none := by
        cases ht : colIdx t c with
        | none => rfl
        | some j => rw [ht] at hc; simp at hc
      show colIdx (x :: (t ++ [n])) c = _
      simp only [colIdx, hx, if_false]
      rw [ih ht]
      by_cases hn : n = c
      · simp [hn, Option.map, List.length_cons]
      · simp [hn, Option.map]

theorem cell_am (h : List String) (n : String) (r : List String) (hr : r.length ≤ h.length)
    (c : String) : cellOf (amHdr h n) (amRow h n r) c = cellOf h r c := by
  by_cases hm : n ∈ h
  · simp [amHdr, amRow, hm]
  · simp only [amHdr, amRow, hm, if_false]
    simp only [cellOf]
    cases hc : colIdx h c with
    | some i =>
      rw [colIdx_append_of_some h n c i hc]
      exact getD_padTo_unit r h.length i
    | none =>
      rw [colIdx_append_of_none h n c hc]
      by_cases hn : n = c
      · rw [if_pos hn]
        have hu := getD_len_append_unit (padTo r h.length)
        rw [padTo_length r h.length hr] at hu
        exact hu
      · rw [if_neg hn]

theorem amRow_le (h : List String) (n : String) (r : List String) (hr : r.length ≤ h.length) :
    (amRow h n r).length ≤ (amHdr h n).length := by
  by_cases hm : n ∈ h <;>
    simp [amRow, amHdr, hm, padTo, List.length_append, List.length_replicate] <;> omega

theorem cell_bf (ns : List String) : ∀ (h r : List String), r.length ≤ h.length →
    ∀ c, cellOf (bfH h ns) (bfRow h r ns) c = cellOf h r c := by
  induction ns with
  | nil => intro h r _ c; rfl
  | cons n ns ih =>
    intro h r hr c
    show cellOf (bfH (amHdr h n) ns) (bfRow (amHdr h n) (amRow h n r) ns) c = _
    rw [ih (amHdr h n) (amRow h n r) (amRow_le h n r hr) c]
    exact cell_am h n r hr c

theorem lockedKeysOf_reduce (h : List String) (rows : List (List String))
    (hwf : ∀ r ∈ rows, r.length ≤ h.length) :
    lockedKeysOf ⟨h, rows⟩ =
      (rows.filter (fun r => decide (pyLower (cellOf h r "Action") = "locked"))).map
        (fun r => pyStrip (pyLower (cellOf h r "Course")) ++ "||" ++
          pyStrip (pyLower (cellOf h r "Component"))) := by
  simp only [lockedKeysOf, auditKeyOf]
  rw [backfill_eq]
  rw [List.filter_map, List.map_map]
  have hf : rows.filter
        ((fun r => decide (pyLower (cellOf (bfH h ["Course", "Component", "Action"]) r "Action") = "locked")) ∘
          fun r => bfRow h r ["Course", "Component", "Action"]) =
      rows.filter (fun r => decide (pyLower (cellOf h r "Action") = "locked")) := by
    apply List.filter_congr
    intro r hrm
    simp only [Function.comp]
    rw [cell_bf _ h r (hwf r hrm)]
  rw [hf]
  apply List.map_congr_left
  intro r hrm
  have hmem : r ∈ rows := List.mem_of_mem_filter hrm
  simp only [Function.comp]
  rw [cell_bf _ h r (hwf r hmem), cell_bf _ h r (hwf r hmem)]

theorem lockedKeys_eq_of_sameCells (h : List String) (rows₁ rows₂ : List (List String))
    (hwf₁ : ∀ r ∈ rows₁, r.length ≤ h.length) (hwf₂ : ∀ r ∈ rows₂, r.length ≤ h.length)
    (hsame : List.Forall₂ (fun r₁ r₂ => cellOf h r₁ "Course" = cellOf h r₂ "Course" ∧
        cellOf h r₁ "Component" = cellOf h r₂ "Component" ∧
        cellOf h r₁ "Action" = cellOf h r₂ "Action") rows₁ rows₂) :
    lockedKeysOf ⟨h, rows₁⟩ = lockedKeysOf ⟨h, rows₂⟩ := by
  rw [lockedKeysOf_reduce h rows₁ hwf₁, lockedKeysOf_reduce h rows₂ hwf₂]
  clear hwf₁ hwf₂
  induction hsame with
  | nil => rfl
  | cons hrel htail ih =>
    rename_i a b l₁ l₂
    obtain ⟨hco, hcp, hac⟩ := hrel
    simp only [List.filter_cons, hac]
    by_cases hl : pyLower (cellOf h b "Action") = "locked"
    · simp [hl, hco, hcp, ih]
    · simp [hl, ih]

/-- C1 amended: `all_components_locked_for_class` reads the audit table only
through each row's Course, Component and Action cells; replacing the audit
rows by rows with the same values in those three columns — in particular,
changing the Class column arbitrarily — never changes the result, whether or
not the audit table has a Class column. -/
theorem resolveLocks_ignores_audit_class (cfg : DF) (klass : String) (h : List String)
    (rows₁ rows₂ : List (List String))
    (hwf₁ : ∀ r ∈ rows₁, r.length ≤ h.length) (hwf₂ : ∀ r ∈ rows₂, r.length ≤ h.length)
    (hsame : List.Forall₂ (fun r₁ r₂ => cellOf h r₁ "Course" = cellOf h r₂ "Course" ∧
        cellOf h r₁ "Component" = cellOf h r₂ "Component" ∧
        cellOf h r₁ "Action" = cellOf h r₂ "Action") rows₁ rows₂) :
    all_components_locked_for_class cfg ⟨h, rows₁⟩ klass =
      all_components_locked_for_class cfg ⟨h, rows₂⟩ klass := by
  have hkeys := lockedKeys_eq_of_sameCells h rows₁ rows₂ hwf₁ hwf₂ hsame
  have hlen : rows₁.length = rows₂.length := hsame.length_eq
  have hemp : (DF.isEmpty ⟨h, rows₁⟩) = (DF.isEmpty ⟨h, rows₂⟩) := by
    cases rows₁ with
    | nil => cases rows₂ with
      | nil => rfl
      | cons _ _ => simp at hlen
    | cons _ _ => cases rows₂ with
      | nil => simp at hlen
      | cons _ _ => rfl
  simp only [all_components_locked_for_class]
  rw [hemp, hkeys]

/-- C1 amended witness: two concrete audits differing only in the Class cell
give the same resolver output. -/
theorem resolveLocks_ignores_audit_class_witness :
    all_components_locked_for_class
        (_prep_cfg ⟨["Class", "CourseCode", "Component"], [["A", "C1", "T1"]]⟩)
        ⟨["Class", "Course", "Component", "Action"], [["B", "C1", "T1", "locked"]]⟩ "A" =
      all_components_locked_for_class
        (_prep_cfg ⟨["Class", "CourseCode", "Component"], [["A", "C1", "T1"]]⟩)
        ⟨["Class", "Course", "Component", "Action"], [["A", "C1", "T1", "locked"]]⟩ "A" :=
  resolveLocks_ignores_audit_class
    (_prep_cfg ⟨["Class", "CourseCode", "Component"], [["A", "C1", "T1"]]⟩) "A"
    ["Class", "Course", "Component", "Action"]
    [["B", "C1", "T1", "locked"]] [["A", "C1", "T1", "locked"]]
    (by decide) (by decide)
    (List.Forall₂.cons (by exact ⟨by decide, by decide, by decide⟩) List.Forall₂.nil)

theorem charToNat_ofNat (m : Nat) (hm : m < 55296) : (Char.ofNat m).toNat = m := by
  have hv : m.isValidChar := Or.inl hm
  rw [Char.ofNat, dif_pos hv]
  rfl

theorem pyLowerCh_cases (c : Char) :
    (65 ≤ c.toNat ∧ c.toNat ≤ 90 ∧ (pyLowerCh c).toNat = c.toNat + 32) ∨
      (¬(65 ≤ c.toNat ∧ c.toNat ≤ 90) ∧ pyLowerCh c = c) := by
  by_cases h : 65 ≤ c.toNat ∧ c.toNat ≤ 90
  · refine Or.inl ⟨h.1, h.2, ?_⟩
    rw [pyLowerCh, if_pos h, charToNat_ofNat]
    omega
  · exact Or.inr ⟨h, by rw [pyLowerCh, if_neg h]⟩

theorem pyLowerCh_pyLowerCh (c : Char) : pyLowerCh (pyLowerCh c) = pyLowerCh c := by
  rcases pyLowerCh_cases c with ⟨h1, h2, h3⟩ | ⟨_, he⟩
  · rcases pyLowerCh_cases (pyLowerCh c) with ⟨g1, g2, _⟩ | ⟨_, ge⟩
    · omega
    · exact ge
  · simp [he]

theorem wsB_pyLowerCh (c : Char) : wsB (pyLowerCh c) = wsB c := by
  rcases pyLowerCh_cases c with ⟨h1, h2, h3⟩ | ⟨_, he⟩
  · have l : wsB (pyLowerCh c) = false := by
      simp only [wsB, h3, Bool.or_eq_false_iff, decide_eq_false_iff_not]
      omega
    have r : wsB c = false := by
      simp only [wsB, Bool.or_eq_false_iff, decide_eq_false_iff_not]
      omega
    rw [l, r]
  · rw [he]

theorem pyLowerCh_of_isLowAl (c : Char) (h : isLowAl c = true) : pyLowerCh c = c := by
  simp only [isLowAl, Bool.or_eq_true, Bool.and_eq_true, decide_eq_true_eq] at h
  rw [pyLowerCh, if_neg]
  omega

theorem wsB_of_isLowAl (c : Char) (h : isLowAl c = true) : wsB c = false := by
  simp only [isLowAl, Bool.or_eq_true, Bool.and_eq_true, decide_eq_true_eq] at h
  simp only [wsB, Bool.or_eq_false_iff, decide_eq_false_iff_not]
  omega

theorem dropWhile_pyLowerL (l : List Char) :
    (pyLowerL l).dropWhile wsB = pyLowerL (l.dropWhile wsB) := by
  induction l with
  | nil => rfl
  | cons c t ih =>
    simp only [pyLowerL, List.map_cons, List.dropWhile_cons, wsB_pyLowerCh]
    by_cases h : wsB c = true
    · simp only [h, if_true]
      exact ih
    · simp only [Bool.not_eq_true] at h
      simp [h, pyLowerL]

theorem reverse_pyLowerL (l : List Char) : (pyLowerL l).reverse = pyLowerL l.reverse := by
  simp [pyLowerL, List.map_reverse]

theorem dropEnd_pyLowerL (l : List Char) : dropEnd (pyLowerL l) = pyLowerL (dropEnd l) := by
  simp only [dropEnd]
  rw [reverse_pyLowerL, dropWhile_pyLowerL, reverse_pyLowerL]

theorem pyStripL_pyLowerL (l : List Char) : pyStripL (pyLowerL l) = pyLowerL (pyStripL l) := by
  simp only [pyStripL]
  rw [dropWhile_pyLowerL, dropEnd_pyLowerL]

theorem pyLowerL_pyLowerL (l : List Char) : pyLowerL (pyLowerL l) = pyLowerL l := by
  simp only [pyLowerL, List.map_map]
  apply List.map_congr_left
  intro c _
  exact pyLowerCh_pyLowerCh c

theorem dropWhile_idem {α : Type} (p : α → Bool) (l : List α) :
    (l.dropWhile p).dropWhile p = l.dropWhile p := by
  induction l with
  | nil => rfl
  | cons c t ih =>
    by_cases h : p c = true
    · simp [List.dropWhile_cons, h, ih]
    · simp only [Bool.not_eq_true] at h
      simp [List.dropWhile_cons, h]

theorem dropWhile_head_false {α : Type} (p : α → Bool) (l : List α) :
    ∀ a t, l.dropWhile p = a :: t → p a = false := by
  induction l with
  | nil => intro a t hc; simp at hc
  | cons c u ih =>
    intro a t hc
    by_cases h : p c = true
    · rw [List.dropWhile_cons, if_pos h] at hc
      exact ih a t hc
    · simp only [Bool.not_eq_true] at h
      rw [List.dropWhile_cons, if_neg (by simp [h])] at hc
      cases hc
      exact h

theorem dropWhile_decomp {α : Type} (p : α → Bool) (l : List α) :
    ∃ w, l = w ++ l.dropWhile p := by
  induction l with
  | nil => exact ⟨[], rfl⟩
  | cons c t ih =>
    by_cases h : p c = true
    · obtain ⟨w, hw⟩ := ih
      refine ⟨c :: w, ?_⟩
      rw [List.dropWhile_cons, if_pos h, List.cons_append, ← hw]
    · exact ⟨[], by rw [List.dropWhile_cons, if_neg (by simp [h])]; rfl⟩

theorem dropEnd_decomp (l : List Char) : ∃ w, l = dropEnd l ++ w := by
  obtain ⟨w, hw⟩ := dropWhile_decomp wsB l.reverse
  refine ⟨w.reverse, ?_⟩
  have := congrArg List.reverse hw
  rw [List.reverse_reverse, List.reverse_append] at this
  simpa [dropEnd] using this

theorem dropEnd_idem (l : List Char) : dropEnd (dropEnd l) = dropEnd l := by
  simp only [dropEnd, List.reverse_reverse]
  rw [dropWhile_idem]

theorem dropWhile_eq_self_of_head {α : Type} (p : α → Bool) (l : List α)
    (h : ∀ a t, l = a :: t → p a = false) : l.dropWhile p = l := by
  cases l with
  | nil => rfl
  | cons a t => rw [List.dropWhile_cons, if_neg (by simp [h a t rfl])]

theorem pyStripL_head_false (l : List Char) :
    ∀ a t, pyStripL l = a :: t → wsB a = false := by
  intro a t hc
  obtain ⟨w, hw⟩ := dropEnd_decomp (l.dropWhile wsB)
  have : l.dropWhile wsB = a :: (t ++ w) := by
    rw [hw, pyStripL] at *
    rw [hc] at hw ⊢
    simpa using hw
  exact dropWhile_head_false wsB l a (t ++ w) this

theorem pyStripL_idem (l : List Char) : pyStripL (pyStripL l) = pyStripL l := by
  have h1 : (pyStripL l).dropWhile wsB = pyStripL l :=
    dropWhile_eq_self_of_head wsB (pyStripL l) (pyStripL_head_false l)
  show dropEnd ((pyStripL l).dropWhile wsB) = pyStripL l
  rw [h1]
  show dropEnd (dropEnd (l.dropWhile wsB)) = pyStripL l
  rw [dropEnd_idem]
  rfl

theorem normKeyL_idem (l : List Char) :
    pyLowerL (pyStripL (pyLowerL (pyStripL l))) = pyLowerL (pyStripL l) := by
  rw [pyStripL_pyLowerL, pyLowerL_pyLowerL, pyStripL_idem]

theorem dropWhile_all_append {α : Type} (p : α → Bool) (w l : List α)
    (hw : ∀ c ∈ w, p c = true) : (w ++ l).dropWhile p = l.dropWhile p := by
  induction w with
  | nil => rfl
  | cons c t ih =>
    rw [List.cons_append, List.dropWhile_cons, if_pos (hw c (by simp))]
    exact ih (fun d hd => hw d (by simp [hd]))

theorem dropWhile_append_pos {α : Type} (p : α → Bool) (l w : List α)
    (hl : l.dropWhile p ≠ []) : (l ++ w).dropWhile p = l.dropWhile p ++ w := by
  induction l with
  | nil => simp at hl
  | cons c t ih =>
    by_cases h : p c = true
    · rw [List.cons_append, List.dropWhile_cons, if_pos h, List.dropWhile_cons, if_pos h] at *
      exact ih hl
    · simp only [Bool.not_eq_true] at h
      rw [List.cons_append, List.dropWhile_cons, if_neg (by simp [h]),
        List.dropWhile_cons, if_neg (by simp [h]), List.cons_append]

theorem dropEnd_append_ws (x w : List Char) (hw : ∀ c ∈ w, wsB c = true) :
    dropEnd (x ++ w) = dropEnd x := by
  simp only [dropEnd, List.reverse_append]
  rw [dropWhile_all_append wsB w.reverse x.reverse (fun c hc => hw c (List.mem_reverse.mp hc))]

theorem pyStripL_pad (w₁ w₂ l : List Char) (hw₁ : ∀ c ∈ w₁, wsB c = true)
    (hw₂ : ∀ c ∈ w₂, wsB c = true) : pyStripL (w₁ ++ l ++ w₂) = pyStripL l := by
  show dropEnd ((w₁ ++ l ++ w₂).dropWhile wsB) = pyStripL l
  rw [List.append_assoc, dropWhile_all_append wsB w₁ (l ++ w₂) hw₁]
  by_cases h0 : l.dropWhile wsB = []
  · have hall : ∀ c ∈ l, wsB c = true := List.dropWhile_eq_nil_iff.mp h0
    have h1 : (l ++ w₂).dropWhile wsB = [] := by
      apply List.dropWhile_eq_nil_iff.mpr
      intro c hc
      rcases List.mem_append.mp hc with hm | hm
      · exact hall c hm
      · exact hw₂ c hm
    rw [h1]
    show dropEnd [] = dropEnd (l.dropWhile wsB)
    rw [h0]
  · rw [dropWhile_append_pos wsB l w₂ h0, dropEnd_append_ws _ w₂ hw₂]
    rfl

/-- C3 counterexample: the join-key normalization of src/1.py does not remove a
trailing ".0": "101.0" normalizes to "101.0", not to "101", and so the
identifiers "101" and "101.0" do not normalize to the identical key. -/
theorem normKey_no_dot_zero_removal :
    normKey "101.0" = "101.0" ∧ normKey "101.0" ≠ normKey "101" := by
  constructor
  · decide
  · decide

/-- C3 amended: the join-key normalization lower-cases and strips surrounding
whitespace only (no ".0" handling): identifiers that differ only in case and
in surrounding whitespace normalize to the identical key. -/
theorem normKey_case_whitespace_insensitive (w₁ w₂ l₁ l₂ : List Char)
    (hw₁ : ∀ c ∈ w₁, wsB c = true) (hw₂ : ∀ c ∈ w₂, wsB c = true)
    (hcase : pyLowerL l₁ = pyLowerL l₂) :
    pyLowerL (pyStripL (w₁ ++ l₁ ++ w₂)) = pyLowerL (pyStripL l₂) := by
  rw [pyStripL_pad w₁ w₂ l₁ hw₁ hw₂, ← pyStripL_pyLowerL, hcase, pyStripL_pyLowerL]

/-- C3 amended witness: " 101A" and "101a" normalize to the same key. -/
theorem normKey_case_whitespace_insensitive_witness :
    pyLowerL (pyStripL ([' '] ++ ['1', '0', '1', 'A'] ++ [])) =
      pyLowerL (pyStripL ['1', '0', '1', 'a']) :=
  normKey_case_whitespace_insensitive [' '] [] ['1', '0', '1', 'A'] ['1', '0', '1', 'a']
    (by decide) (by decide) (by decide)

theorem toSpace_spec (d : Char) : isLowAl (toSpace d) = true ∨ toSpace d = ' ' := by
  by_cases h : isLowAl d = true
  · left
    simp [toSpace, h]
  · right
    simp [toSpace, h]

theorem mem_collapse (c : Char) : ∀ l : List Char, c ∈ collapseSpaces l → c ∈ l := by
  intro l
  induction l with
  | nil => simp [collapseSpaces]
  | cons a t ih =>
    cases t with
    | nil => simp [collapseSpaces]
    | cons b t' =>
      simp only [collapseSpaces]
      by_cases hab : a = ' ' ∧ b = ' '
      · rw [if_pos hab]
        intro hc
        exact List.mem_cons_of_mem a (ih hc)
      · rw [if_neg hab]
        intro hc
        rcases List.mem_cons.mp hc with hc | hc
        · simp [hc]
        · exact List.mem_cons_of_mem a (ih hc)

theorem head_collapse : ∀ (t : List Char) (a : Char), (collapseSpaces (a :: t)).head? = some a := by
  intro t
  induction t with
  | nil => intro a; rfl
  | cons b t' ih =>
    intro a
    simp only [collapseSpaces]
    by_cases hab : a = ' ' ∧ b = ' '
    · rw [if_pos hab, ih b, hab.1, hab.2]
    · rw [if_neg hab]
      rfl

theorem noDbl_collapse : ∀ l : List Char, noDbl (collapseSpaces l) := by
  intro l
  induction l with
  | nil => trivial
  | cons a t ih =>
    cases t with
    | nil => trivial
    | cons b t' =>
      simp only [collapseSpaces]
      by_cases hab : a = ' ' ∧ b = ' '
      · rw [if_pos hab]
        exact ih
      · rw [if_neg hab]
        cases hX : collapseSpaces (b :: t') with
        | nil => trivial
        | cons x xs =>
          have h2 := head_collapse t' b
          rw [hX] at h2
          have hx : x = b := by simpa using h2
          subst hx
          rw [hX] at ih
          exact ⟨hab, ih⟩

theorem noDbl_tail (a : Char) (t : List Char) (h : noDbl (a :: t)) : noDbl t := by
  cases t with
  | nil => trivial
  | cons b t' => exact h.2

theorem noDbl_append_left : ∀ (y w : List Char), noDbl (y ++ w) → noDbl y := by
  intro y
  induction y with
  | nil => intro w _; trivial
  | cons a y' ih =>
    intro w h
    cases y' with
    | nil => trivial
    | cons b t =>
      have h' : ¬(a = ' ' ∧ b = ' ') ∧ noDbl ((b :: t) ++ w) := h
      exact ⟨h'.1, ih w h'.2⟩

theorem noDbl_append_right : ∀ (w y : List Char), noDbl (w ++ y) → noDbl y := by
  intro w
  induction w with
  | nil => intro y h; exact h
  | cons c w' ih =>
    intro y h
    exact ih y (noDbl_tail c (w' ++ y) h)

theorem collapse_fix : ∀ l : List Char, noDbl l → collapseSpaces l = l := by
  intro l
  induction l with
  | nil => intro _; rfl
  | cons a t ih =>
    intro h
    cases t with
    | nil => rfl
    | cons b t' =>
      simp only [collapseSpaces]
      rw [if_neg h.1, ih h.2]

theorem mem_pyStripL (c : Char) (l : List Char) (hc : c ∈ pyStripL l) : c ∈ l := by
  obtain ⟨w₁, hw₁⟩ := dropWhile_decomp wsB l
  obtain ⟨w₂, hw₂⟩ := dropEnd_decomp (l.dropWhile wsB)
  have hc' : c ∈ dropEnd (l.dropWhile wsB) := hc
  rw [hw₁]
  apply List.mem_append_right
  rw [hw₂]
  exact List.mem_append_left _ hc'

theorem noDbl_pyStripL (l : List Char) (h : noDbl l) : noDbl (pyStripL l) := by
  obtain ⟨w₁, hw₁⟩ := dropWhile_decomp wsB l
  obtain ⟨w₂, hw₂⟩ := dropEnd_decomp (l.dropWhile wsB)
  have h1 : noDbl (l.dropWhile wsB) := noDbl_append_right w₁ _ (by rw [← hw₁]; exact h)
  show noDbl (dropEnd (l.dropWhile wsB))
  apply noDbl_append_left _ w₂
  rw [← hw₂]
  exact h1

theorem pyStripL_revhead_false (l : List Char) :
    ∀ a t, (pyStripL l).reverse = a :: t → wsB a = false := by
  intro a t h
  have h' : (l.dropWhile wsB).reverse.dropWhile wsB = a :: t := by
    simpa [pyStripL, dropEnd, List.reverse_reverse] using h
  exact dropWhile_head_false wsB _ a t h'

theorem map_fix {α : Type} (f : α → α) (l : List α) (h : ∀ c ∈ l, f c = c) : l.map f = l := by
  induction l with
  | nil => rfl
  | cons a t ih =>
    rw [List.map_cons, h a (by simp), ih (fun c hc => h c (by simp [hc]))]

theorem goodStr_normWordsL (l : List Char) : goodStr (normWordsL l) := by
  refine ⟨?_, ?_, ?_, ?_⟩
  · intro c hc
    have hc1 : c ∈ collapseSpaces ((pyLowerL l).map toSpace) := mem_pyStripL c _ hc
    have hc2 : c ∈ (pyLowerL l).map toSpace := mem_collapse c _ hc1
    obtain ⟨d, _, hd⟩ := List.mem_map.mp hc2
    rw [← hd]
    exact toSpace_spec d
  · exact noDbl_pyStripL _ (noDbl_collapse _)
  · exact pyStripL_head_false _
  · exact pyStripL_revhead_false _

theorem normWordsL_fix (r : List Char) (hg : goodStr r) : normWordsL r = r := by
  obtain ⟨hch, hnd, hhd, hrv⟩ := hg
  have hfix : ∀ c ∈ r, isLowAl c = true ∨ c = ' ' := hch
  have h1 : pyLowerL r = r := by
    apply map_fix
    intro c hc
    rcases hfix c hc with h | h
    · exact pyLowerCh_of_isLowAl c h
    · rw [h]
      decide
  have h2 : r.map toSpace = r := by
    apply map_fix
    intro c hc
    rcases hfix c hc with h | h
    · simp [toSpace, h]
    · rw [h]
      decide
  have h3 : collapseSpaces r = r := collapse_fix r hnd
  have h4 : pyStripL r = r := by
    have hdw : r.dropWhile wsB = r := dropWhile_eq_self_of_head wsB r hhd
    have hde : r.reverse.dropWhile wsB = r.reverse := dropWhile_eq_self_of_head wsB r.reverse hrv
    show dropEnd (r.dropWhile wsB) = r
    rw [hdw]
    show (r.reverse.dropWhile wsB).reverse = r
    rw [hde, List.reverse_reverse]
  show pyStripL (collapseSpaces ((pyLowerL r).map toSpace)) = r
  rw [h1, h2, h3, h4]

/-- C7: both normalizers of src/1.py are idempotent: the join-key normalization
(strip then lower, from `_prep_cfg`) and `_norm` (lower, collapse
non-alphanumerics to single spaces, strip) each give the same result when
applied twice. -/
theorem normalize_idempotent :
    (∀ s : String, normKey (normKey s) = normKey s) ∧ (∀ s : String, _norm (_norm s) = _norm s) := by
  constructor
  · intro s
    show (⟨pyLowerL (pyStripL (pyLowerL (pyStripL s.data)))⟩ : String) = ⟨pyLowerL (pyStripL s.data)⟩
    rw [normKeyL_idem]
  · intro s
    show (⟨normWordsL (normWordsL s.data)⟩ : String) = ⟨normWordsL s.data⟩
    rw [normWordsL_fix _ (goodStr_normWordsL s.data)]

/-- C5 counterexample: for course-code "C1" and component "T1", with the
conventional tab name "C1__T1" present among the titles, the tab finder of
src/1.py returns "T1" (an exact component-pattern match), not the
"{CourseCode}__{Component}" tab the claim says is synthesized and tried first;
the function does not even take the course-code as input. -/
theorem find_tab_ignores_convention_name :
    find_matching_marks_tab "T1" ["C1__T1", "T1"] = "T1" ∧ ("T1" : String) ≠ "C1__T1" := by
  constructor
  · decide
  · decide

/-- C5 amended: the tab finder first scans the titles for one whose normalized
form exactly equals a component-based pattern (comp, comp_marks, "comp marks",
marks_comp, "marks comp"); only when no title matches any pattern does it fall
back to substring containment of the normalized component in the normalized
title; no course-code-based name is ever synthesized. -/
theorem find_tab_patterns_then_fuzzy (component_name : String) (all_titles : List String) :
    (∀ t, all_titles.find?
          (fun title => decide (pyStrip (pyLower title) ∈ patternsOf component_name)) = some t →
        find_matching_marks_tab component_name all_titles = t) ∧
    (all_titles.find?
          (fun title => decide (pyStrip (pyLower title) ∈ patternsOf component_name)) = none →
      find_matching_marks_tab component_name all_titles =
        (all_titles.find? (fun title =>
            substrS (pyStrip (pyLower component_name)) (pyStrip (pyLower title)))).getD "") := by
  constructor
  · intro t ht
    simp only [find_matching_marks_tab]
    rw [ht]
  · intro hn
    simp only [find_matching_marks_tab]
    rw [hn]
    cases hf : all_titles.find? (fun title =>
        substrS (pyStrip (pyLower component_name)) (pyStrip (pyLower title))) with
    | some a => rfl
    | none => rfl

/-- C5 amended witness: "T1 Marks" is found by the pattern scan. -/
theorem find_tab_patterns_then_fuzzy_witness :
    find_matching_marks_tab "T1" ["T1 Marks"] = "T1 Marks" :=
  (find_tab_patterns_then_fuzzy "T1" ["T1 Marks"]).1 "T1 Marks" (by decide)

/-- C8: a tab that the store reports with HTTP 400 (unreadable request) or 404
(absent) is returned by `load_tab` as an empty frame inside `.ok` — no
exception escapes — and an unlocked row whose tab reads back empty (or errors)
classifies as NotStarted. -/
theorem unreadable_tab_not_error :
    (∀ code : Nat, code = 400 ∨ code = 404 →
        load_tab (.httpError code) = .ok ⟨[], []⟩ ∧
          classify false (load_tab (.httpError code)) = .NotStarted) ∧
    (∀ df : DF, df.rows = [] → classify false (.ok df) = .NotStarted) ∧
    (∀ e : Nat, classify false (.error e) = .NotStarted) := by
  refine ⟨?_, ?_, ?_⟩
  · intro code hc
    have h1 : load_tab (.httpError code) = .ok ⟨[], []⟩ := by
      simp [load_tab, hc]
    exact ⟨h1, by rw [h1]; rfl⟩
  · intro df hdf
    simp [classify, hdf]
  · intro e
    rfl

/-- C8 witness: concrete instances at 404, at an empty frame and at an error. -/
theorem unreadable_tab_not_error_witness :
    (load_tab (.httpError 404) = .ok ⟨[], []⟩ ∧
        classify false (load_tab (.httpError 404)) = .NotStarted) ∧
      classify false (.ok ⟨["Header"], []⟩) = .NotStarted ∧
      classify false (.error 500) = .NotStarted :=
  ⟨unreadable_tab_not_error.1 404 (Or.inr rfl),
    unreadable_tab_not_error.2.1 ⟨["Header"], []⟩ rfl,
    unreadable_tab_not_error.2.2 500⟩

/-- C9: on tab titles {"Final Year Final", "Final Year Final (Provisional)",
"Other Sheet"} with class "Final Year", the Final-Tab Locator returns
approved = "Final Year Final" and provisional = "Final Year Final (Provisional)"
(both found by Tier A; the provisional-token test routes them to the two slots). -/
theorem locateFinalTabs_scenario :
    locateFinalTabs ["Final Year Final", "Final Year Final (Provisional)", "Other Sheet"]
        "Final Year" =
      (some "Final Year Final", some "Final Year Final (Provisional)") := by
  decide

